import Mathlib

/-!
Verification development for the Quarto web application.

The definitions below are a shallow embedding of the TypeScript sources:
  - src/src/types.ts        (pieces, board, game state)
  - src/src/gameLogic.ts    (victory engine, board normalization, accessors)
  - src/src/aiLogic.ts      (AI placement and piece choice)
  - src/src/onlineLogic.ts  (online synchronization)
  - the application component (handlers and Firebase polling callbacks)

Pieces are 4-bit naturals.  A board cell holds `some piece` or `none`
(the JavaScript `null`).  A board is a list of rows, mirroring the
TypeScript type `Board = BoardCell[][]`.  Machine integers are modelled
by `Nat`/`Int`; bitwise operators only ever touch the low 4 bits, where
JavaScript 32-bit semantics and `Nat` semantics agree.
-/

namespace Quarto

/-- Piece values: 4-bit numbers 0..15 (types.ts, `type Piece = number`). -/
abbrev Piece := Nat

/-- Board cell: `none` models the JavaScript `null` (types.ts `BoardCell`). -/
abbrev BoardCell := Option Piece

/-- Board: list of rows of cells (types.ts `Board = BoardCell[][]`). -/
abbrev Board := List (List BoardCell)

/-- Board dimension constant (types.ts `BOARD_SIZE = 4`). -/
def BOARD_SIZE : Nat := 4

/-- Read `board[r][c]`; out-of-range reads yield `none`.  Valid only for
reads that the TypeScript code performs on well-formed boards. -/
def getCell (b : Board) (r c : Nat) : BoardCell :=
  (b.getD r []).getD c none

/-- Write `board[r][c] = v` in place (no-op out of range, which never
happens on the well-formed boards the sources use). -/
def setCell (b : Board) (r c : Nat) (v : BoardCell) : Board :=
  b.set r ((b.getD r []).set c v)

/-- A board is well-formed when it is a proper 4x4 nested array. -/
def WellFormed (b : Board) : Prop :=
  b.length = 4 ∧ ∀ row ∈ b, row.length = 4

instance (b : Board) : Decidable (WellFormed b) := by
  unfold WellFormed; infer_instance

/-- Victory options (types.ts): which victory conditions are enabled. -/
structure VictoryOptions where
  lines : Bool
  squares : Bool
deriving DecidableEq

/-- Winning position record (types.ts `WinningPosition`). -/
structure WinningPosition where
  row : Nat
  col : Nat
deriving DecidableEq

/-- gameLogic.ts `checkCommonAttribute`: loop over the four bit
positions; for each, test whether all four pieces have the bit set or
all four lack it, returning true at the first such bit. -/
def checkCommonAttribute (p1 p2 p3 p4 : Piece) : Bool :=
  (List.range 4).any fun bit =>
    let mask := 1 <<< bit
    (decide (p1 &&& mask ≠ 0) && decide (p2 &&& mask ≠ 0) &&
     decide (p3 &&& mask ≠ 0) && decide (p4 &&& mask ≠ 0)) ||
    (decide (p1 &&& mask = 0) && decide (p2 &&& mask = 0) &&
     decide (p3 &&& mask = 0) && decide (p4 &&& mask = 0))

/-- gameLogic.ts `checkLine`: the four cells must all be filled and the
four pieces must share an attribute.  `cells[i]` is read as in the
source (`pieces[0] .. pieces[3]`). -/
def checkLine (cells : List BoardCell) : Bool :=
  if cells.any fun cell => decide (cell = none) then false
  else
    checkCommonAttribute ((cells.getD 0 none).getD 0) ((cells.getD 1 none).getD 0)
      ((cells.getD 2 none).getD 0) ((cells.getD 3 none).getD 0)

/-- gameLogic.ts `checkLinesVictory`: rows 0..3 in order, then columns
0..3, then the main diagonal, then the anti-diagonal; the first
satisfied line is returned with its positions. -/
def checkLinesVictory (b : Board) : Option (List WinningPosition) :=
  match (List.range BOARD_SIZE).findSome? (fun row =>
      if checkLine (b.getD row []) then
        some [⟨row, 0⟩, ⟨row, 1⟩, ⟨row, 2⟩, ⟨row, 3⟩] else none) with
  | some w => some w
  | none =>
    match (List.range BOARD_SIZE).findSome? (fun col =>
        if checkLine [getCell b 0 col, getCell b 1 col, getCell b 2 col, getCell b 3 col] then
          some [⟨0, col⟩, ⟨1, col⟩, ⟨2, col⟩, ⟨3, col⟩] else none) with
    | some w => some w
    | none =>
      if checkLine [getCell b 0 0, getCell b 1 1, getCell b 2 2, getCell b 3 3] then
        some [⟨0, 0⟩, ⟨1, 1⟩, ⟨2, 2⟩, ⟨3, 3⟩]
      else if checkLine [getCell b 0 3, getCell b 1 2, getCell b 2 1, getCell b 3 0] then
        some [⟨0, 3⟩, ⟨1, 2⟩, ⟨2, 1⟩, ⟨3, 0⟩]
      else none

/-- gameLogic.ts `checkSquaresVictory`: the nine 2x2 squares anchored at
(row, col) with row, col in 0..2, scanned row-major, first hit wins. -/
def checkSquaresVictory (b : Board) : Option (List WinningPosition) :=
  (List.range (BOARD_SIZE - 1)).findSome? fun row =>
    (List.range (BOARD_SIZE - 1)).findSome? fun col =>
      if checkLine [getCell b row col, getCell b row (col + 1),
                    getCell b (row + 1) col, getCell b (row + 1) (col + 1)] then
        some [⟨row, col⟩, ⟨row, col + 1⟩, ⟨row + 1, col⟩, ⟨row + 1, col + 1⟩]
      else none

/-- gameLogic.ts `checkVictory`: lines first when enabled, then squares
when enabled, else null. -/
def checkVictory (b : Board) (opts : VictoryOptions) : Option (List WinningPosition) :=
  match (if opts.lines then checkLinesVictory b else none) with
  | some w => some w
  | none => if opts.squares then checkSquaresVictory b else none

/-- gameLogic.ts `initializeBoard`: a 4x4 board of nulls. -/
def initializeBoard : Board :=
  List.replicate BOARD_SIZE (List.replicate BOARD_SIZE none)

/-- gameLogic.ts `placePiece`: copy the board and set one cell. -/
def placePiece (b : Board) (row col : Nat) (p : Piece) : Board :=
  setCell b row col (some p)

/-! Specification side for claim C1: the candidate sets in the scan
order stated by the specification.  These definitions follow the words
of the spec, to be compared with `checkVictory` above. -/

/-- Candidate cell set of row r, as its four positions. -/
def rowCandidate (r : Nat) : List WinningPosition :=
  [⟨r, 0⟩, ⟨r, 1⟩, ⟨r, 2⟩, ⟨r, 3⟩]

/-- Candidate cell set of column c. -/
def colCandidate (c : Nat) : List WinningPosition :=
  [⟨0, c⟩, ⟨1, c⟩, ⟨2, c⟩, ⟨3, c⟩]

/-- Main diagonal candidate. -/
def diagCandidate : List WinningPosition := [⟨0, 0⟩, ⟨1, 1⟩, ⟨2, 2⟩, ⟨3, 3⟩]

/-- Anti-diagonal candidate. -/
def antiDiagCandidate : List WinningPosition := [⟨0, 3⟩, ⟨1, 2⟩, ⟨2, 1⟩, ⟨3, 0⟩]

/-- 2x2 square candidate anchored at (r, c). -/
def squareCandidate (r c : Nat) : List WinningPosition :=
  [⟨r, c⟩, ⟨r, c + 1⟩, ⟨r + 1, c⟩, ⟨r + 1, c + 1⟩]

/-- Line candidates in spec order: rows 0..3, columns 0..3, main
diagonal, anti-diagonal. -/
def lineCandidates : List (List WinningPosition) :=
  ((List.range 4).map rowCandidate) ++ ((List.range 4).map colCandidate) ++
    [diagCandidate, antiDiagCandidate]

/-- Square candidates: anchors (r, c) with r, c in [0, 2], row-major. -/
def squareCandidates : List (List WinningPosition) :=
  (List.range 3).flatMap fun r => (List.range 3).map fun c => squareCandidate r c

/-- Candidate sets scanned, by enabled options, in spec order. -/
def specCandidates (opts : VictoryOptions) : List (List WinningPosition) :=
  (if opts.lines then lineCandidates else []) ++
    (if opts.squares then squareCandidates else [])

/-- Specification predicate: a candidate set is winning iff all four of
its cells are occupied and the four pieces share an attribute. -/
def candidateWins (b : Board) (cand : List WinningPosition) : Bool :=
  match cand.map (fun p => getCell b p.row p.col) with
  | [some q1, some q2, some q3, some q4] => checkCommonAttribute q1 q2 q3 q4
  | _ => false

/-- Specification scan: the first winning candidate set, or none. -/
def specScan (b : Board) (opts : VictoryOptions) : Option (List WinningPosition) :=
  (specCandidates opts).find? (candidateWins b)

/-! Embedding of src/src/aiLogic.ts.  The TypeScript AI simulates moves
by writing into the board in place and undoing the write; the embedding
threads the board state through every function explicitly, so that the
frame claims about those temporary writes can be stated. -/

/-- aiLogic.ts `getEmptyPositions`: row-major scan of the 4x4 grid. -/
def getEmptyPositions (b : Board) : List (Nat × Nat) :=
  (List.range BOARD_SIZE).flatMap fun row =>
    (List.range BOARD_SIZE).filterMap fun col =>
      if getCell b row col = none then some (row, col) else none

/-- aiLogic.ts `getRemainingReserve` helper: ids of the pieces on the
board, scanned row-major. -/
def boardPieceIds (b : Board) : List Piece :=
  (List.range BOARD_SIZE).flatMap fun r =>
    (List.range BOARD_SIZE).filterMap fun c => getCell b r c

/-- aiLogic.ts `getRemainingReserve`: the ids 0..15 that are neither the
piece in hand nor on the board.  The source wraps each id in an object
`\x7bid: i\x7d`; every later read unwraps to the id, so the reserve is
modelled as the list of ids. -/
def getRemainingReserve (b : Board) (pieceInHand : Piece) : List Piece :=
  (List.range 16).filter fun i =>
    !(i == pieceInHand || (boardPieceIds b).contains i)

/-- aiLogic.ts low-4-bit complement: JavaScript `~id & 15`. -/
def notMask4 (id : Piece) : Nat := (id &&& 15) ^^^ 15

/-- aiLogic.ts `hasCommonAttributeInList`: fold bitwise AND of the ids
(resp. of their low-4-bit complements) starting from mask 15; the pieces
share an attribute iff either fold is nonzero. -/
def hasCommonAttributeInList (pieces : List Piece) : Bool :=
  if pieces.length = 0 then false
  else
    let mask := 15
    let commonOnes := pieces.foldl (fun acc id => acc &&& id) mask
    let commonZeros := pieces.foldl (fun acc id => acc &&& notMask4 id) mask
    decide (commonOnes > 0) || decide (commonZeros > 0)

/-- aiLogic.ts `checkWinningLine`, inner helper `check`: a full line of
four occupied cells whose pieces share an attribute. -/
def checkFilled (arr : List BoardCell) : Bool :=
  if arr.any fun x => decide (x = none) then false
  else hasCommonAttributeInList (arr.filterMap id)

/-- aiLogic.ts `checkWinningLine`, squares part: scan the 2x2 squares
whose anchor range covers (row, col). -/
def squaresThrough (b : Board) (row col : Nat) : Bool :=
  let startRow := row - 1
  let endRow := min (BOARD_SIZE - 2) row
  let startCol := col - 1
  let endCol := min (BOARD_SIZE - 2) col
  (List.range' startRow (endRow + 1 - startRow)).any fun r =>
    (List.range' startCol (endCol + 1 - startCol)).any fun c =>
      checkFilled [getCell b r c, getCell b r (c + 1),
                   getCell b (r + 1) c, getCell b (r + 1) (c + 1)]

/-- aiLogic.ts `checkWinningLine`: does the line, column, diagonal or
covering square through (row, col) win on this board. -/
def checkWinningLine (b : Board) (row col : Nat) (opts : VictoryOptions) : Bool :=
  (opts.lines &&
    (checkFilled (b.getD row []) ||
     checkFilled [getCell b 0 col, getCell b 1 col, getCell b 2 col, getCell b 3 col] ||
     (row == col &&
       checkFilled [getCell b 0 0, getCell b 1 1, getCell b 2 2, getCell b 3 3]) ||
     (row + col == 3 &&
       checkFilled [getCell b 0 3, getCell b 1 2, getCell b 2 1, getCell b 3 0]))) ||
  (opts.squares && squaresThrough b row col)

/-- aiLogic.ts `wouldWin`: write the piece into the cell, evaluate
`checkWinningLine`, write null back; returns the verdict and the board
as left behind by the two writes. -/
def wouldWin (b : Board) (row col : Nat) (p : Piece) (opts : VictoryOptions) :
    Bool × Board :=
  let b1 := setCell b row col (some p)
  let win := checkWinningLine b1 row col opts
  (win, setCell b1 row col none)

/-- aiLogic.ts `calculateOffensiveScore`, inner `checkLinePotential`. -/
def checkLinePotential (arr : List BoardCell) : Int :=
  let pieces := arr.filterMap id
  if pieces.length < 2 then 0
  else if hasCommonAttributeInList pieces then
    (if pieces.length = 3 then 50 else 10)
  else 0

/-- aiLogic.ts `calculateOffensiveScore` (the piece argument is unused
in the source as well: the simulated piece is already on the board). -/
def calculateOffensiveScore (b : Board) (row col : Nat) (_piece : Piece)
    (opts : VictoryOptions) : Int :=
  if opts.lines then
    checkLinePotential (b.getD row []) +
    checkLinePotential [getCell b 0 col, getCell b 1 col, getCell b 2 col, getCell b 3 col] +
    (if row = col then
      checkLinePotential [getCell b 0 0, getCell b 1 1, getCell b 2 2, getCell b 3 3] else 0) +
    (if row + col = 3 then
      checkLinePotential [getCell b 0 3, getCell b 1 2, getCell b 2 1, getCell b 3 0] else 0)
  else 0

/-- Inner loop of the safety scans in aiLogic.ts (`aiChoosePosition`
step B and the `aiChoosePiece` filter): probe `wouldWin` on each empty
position in order, stopping at the first win, threading the board. -/
def probePiecePositions (b : Board) (p : Piece) (ps : List (Nat × Nat))
    (opts : VictoryOptions) : Bool × Board :=
  match ps with
  | [] => (false, b)
  | pos :: rest =>
    let r := wouldWin b pos.1 pos.2 p opts
    if r.1 then (true, r.2) else probePiecePositions r.2 p rest opts

/-- aiLogic.ts `aiChoosePosition` step B: count the reserve pieces that
let the opponent win nowhere, threading the board through the probes. -/
def countSafeReserve (b : Board) (reserve : List Piece) (ps : List (Nat × Nat))
    (opts : VictoryOptions) : Nat × Board :=
  match reserve with
  | [] => (0, b)
  | p :: rest =>
    let probe := probePiecePositions b p ps opts
    let tail := countSafeReserve probe.2 rest ps opts
    (if probe.1 then tail.1 else tail.1 + 1, tail.2)

/-- JavaScript `currentScore > maxScore` where `maxScore` starts at
minus infinity (modelled by `none`; every concrete score is finite). -/
def beatsMax (s : Rat) (maxScore : Option Rat) : Bool :=
  match maxScore with
  | none => true
  | some m => decide (s > m)

/-- Accumulator of the `aiChoosePosition` loop: the threaded board, the
early-return cell if a winning placement was found, the best move and
score so far, and the count of Math.random() values consumed. -/
structure AiPosAcc where
  board : Board
  result : Option (Nat × Nat)
  bestMove : Option (Nat × Nat)
  maxScore : Option Rat
  ridx : Nat

/-- One iteration of the `aiChoosePosition` loop over an empty cell:
test immediate victory (step A), otherwise simulate the placement,
count safe reserve pieces on the simulated board (step B), score the
move (step C), undo the simulation, and keep the best move (step D).
`randFn` supplies the successive Math.random() draws. -/
def aiPosStep (pieceToPlace : Piece) (opts : VictoryOptions) (randFn : Nat → Rat)
    (acc : AiPosAcc) (pos : Nat × Nat) : AiPosAcc :=
  match acc.result with
  | some _ => acc
  | none =>
    let probe := wouldWin acc.board pos.1 pos.2 pieceToPlace opts
    if probe.1 then { acc with board := probe.2, result := some pos }
    else
      let b1 := setCell probe.2 pos.1 pos.2 (some pieceToPlace)
      let remainingReserve := getRemainingReserve b1 pieceToPlace
      let nextEmpty := getEmptyPositions b1
      let counted :=
        if nextEmpty = [] then ((0 : Nat), b1)
        else countSafeReserve b1 remainingReserve nextEmpty opts
      let scored : Rat × Nat :=
        if counted.1 = 0 ∧ remainingReserve ≠ [] then (-1000, acc.ridx)
        else
          ((1000 : Rat) + counted.1 +
            (calculateOffensiveScore counted.2 pos.1 pos.2 pieceToPlace opts : Int) +
            randFn acc.ridx * 5,
           acc.ridx + 1)
      let b2 := setCell counted.2 pos.1 pos.2 none
      { board := b2,
        result := none,
        bestMove := if beatsMax scored.1 acc.maxScore then some pos else acc.bestMove,
        maxScore := if beatsMax scored.1 acc.maxScore then some scored.1 else acc.maxScore,
        ridx := scored.2 }

/-- aiLogic.ts `aiChoosePosition`: loop over every empty cell; return
immediately on a winning placement, otherwise the best-scoring cell
(`none` models the undefined result on a full board).  The returned
board is the board object as left behind by the in-place simulations. -/
def aiChoosePosition (b : Board) (pieceToPlace : Piece) (opts : VictoryOptions)
    (randFn : Nat → Rat) : Option (Nat × Nat) × Board :=
  let emptyPositions := getEmptyPositions b
  let init : AiPosAcc :=
    { board := b, result := none, bestMove := emptyPositions.head?,
      maxScore := none, ridx := 0 }
  let final := emptyPositions.foldl (aiPosStep pieceToPlace opts randFn) init
  (match final.result with
   | some pos => some pos
   | none => final.bestMove, final.board)

/-- aiLogic.ts `aiChoosePiece` filter: keep the pieces for which no
empty position lets the opponent win, threading the board. -/
def filterSafePieces (b : Board) (pieces : List Piece) (ps : List (Nat × Nat))
    (opts : VictoryOptions) : List Piece × Board :=
  match pieces with
  | [] => ([], b)
  | p :: rest =>
    let probe := probePiecePositions b p ps opts
    let tail := filterSafePieces probe.2 rest ps opts
    (if probe.1 then tail.1 else p :: tail.1, tail.2)

/-- JavaScript `Math.floor(rand * len)` for a draw rand in [0, 1). -/
def jsRandomIndex (rand : Rat) (len : Nat) : Nat :=
  (rand * len).floor.toNat

/-- aiLogic.ts `aiChoosePiece`: filter the available pieces down to the
safe ones; pick a random safe piece when any exists, otherwise a random
available piece.  `rand1`/`rand2` are the two Math.random() call sites;
the returned board is the threaded board object. -/
def aiChoosePiece (b : Board) (availablePieces : List Piece) (opts : VictoryOptions)
    (rand1 rand2 : Rat) : Option Piece × Board :=
  let emptyPositions := getEmptyPositions b
  let filtered := filterSafePieces b availablePieces emptyPositions opts
  if filtered.1.length > 0 then
    (filtered.1.get? (jsRandomIndex rand1 filtered.1.length), filtered.2)
  else
    (availablePieces.get? (jsRandomIndex rand2 availablePieces.length), filtered.2)

/-! Embedding of the game state and the interaction handlers of the
application component (the App source, provided as an unnamed part of
the repository), plus gameLogic.ts `isPositionEmpty` with JavaScript
indexing semantics. -/

/-- Game modes (types.ts `GameMode`, extended with online play). -/
inductive GameMode where
  | twoPlayer
  | vsAI
  | online
deriving DecidableEq

/-- Connection info of this client (the `onlineRoom` field): which room,
which player number this client is, and whether it is the host. -/
structure OnlineRoomInfo where
  roomId : String
  playerNumber : Nat
  isHost : Bool
deriving DecidableEq

/-- Game state (types.ts `GameState` with the fields used by the App
component; `currentPlayer` and `winner` take the values 1 and 2). -/
structure GameState where
  board : Board
  availablePieces : List Piece
  currentPiece : Option Piece
  currentPlayer : Nat
  winner : Option Nat
  gameOver : Bool
  gameMode : GameMode
  victoryOptions : VictoryOptions
  winningPositions : Option (List WinningPosition)
  onlineRoom : Option OnlineRoomInfo
deriving DecidableEq

/-- JavaScript indexing `l[i]` on an array: `none` models undefined. -/
def jsIndex {α : Type} (l : List α) (i : Int) : Option α :=
  if h : 0 ≤ i ∧ i.toNat < l.length then some (l.get ⟨i.toNat, h.2⟩) else none

/-- gameLogic.ts `isPositionEmpty`: the expression
`board[row][col] === null` under JavaScript semantics.  When
`board[row]` is undefined the inner access throws a TypeError, modelled
by `Except.error`; otherwise the strict comparison yields a boolean
(an out-of-range column reads undefined, and undefined === null is
false). -/
def isPositionEmpty (b : Board) (row col : Int) : Except Unit Bool :=
  match jsIndex b row with
  | none => Except.error ()
  | some r =>
    Except.ok (match jsIndex r col with
      | some cell => decide (cell = none)
      | none => false)

instance : DecidableEq (Except Unit Bool) := fun a b =>
  match a, b with
  | Except.error (), Except.error () => isTrue rfl
  | Except.error (), Except.ok _ => isFalse fun h => Except.noConfusion h
  | Except.ok _, Except.error () => isFalse fun h => Except.noConfusion h
  | Except.ok x, Except.ok y =>
    match decEq x y with
    | isTrue h => isTrue (h ▸ rfl)
    | isFalse h => isFalse fun hh => h (Except.ok.inj hh)

/-- Turn guard used by the online handlers: the acting identity differs
from the player number of this client. -/
def onlineTurnMismatch (s : GameState) : Bool :=
  match s.onlineRoom with
  | some info => s.currentPlayer != info.playerNumber
  | none => false

/-- Guards of `handleBoardClick` (App component): the click is accepted
when it is in bounds, no AI processing blocks it, the game is running
with a piece in hand over an empty cell, and in online mode it is this
client, acting. -/
def placementAccepted (aiProcessing : Bool) (row col : Nat) (s : GameState) : Prop :=
  row < BOARD_SIZE ∧ col < BOARD_SIZE ∧
  ¬(s.gameMode = GameMode.vsAI ∧ aiProcessing = true) ∧
  ¬(s.gameOver = true ∨ s.currentPiece = none ∨
      isPositionEmpty s.board row col ≠ Except.ok true) ∧
  ¬(s.gameMode = GameMode.online ∧ onlineTurnMismatch s = true)

instance (ai : Bool) (row col : Nat) (s : GameState) :
    Decidable (placementAccepted ai row col s) := by
  unfold placementAccepted; infer_instance

/-- The state update performed by `handleBoardClick` (App component):
bounds check, guards, then place the piece, evaluate victory, consume
the piece, and keep the acting identity unchanged; on any rejected
guard the previous state is returned unchanged. -/
def handleBoardClickUpdate (aiProcessing : Bool) (row col : Nat) (prev : GameState) :
    GameState :=
  if BOARD_SIZE ≤ row ∨ BOARD_SIZE ≤ col then prev
  else if prev.gameMode = GameMode.vsAI ∧ aiProcessing = true then prev
  else if prev.gameOver = true ∨ prev.currentPiece = none ∨
      isPositionEmpty prev.board row col ≠ Except.ok true then prev
  else if prev.gameMode = GameMode.online ∧ onlineTurnMismatch prev = true then prev
  else
    match prev.currentPiece with
    | none => prev
    | some piece =>
      let newBoard := placePiece prev.board row col piece
      let winningPositions := checkVictory newBoard prev.victoryOptions
      let hasWon := winningPositions ≠ none
      let newAvailablePieces := prev.availablePieces.filter fun p => p ≠ piece
      { prev with
        board := newBoard,
        availablePieces := newAvailablePieces,
        currentPiece := none,
        winner := if hasWon then some prev.currentPlayer else none,
        gameOver := hasWon ∨ newAvailablePieces = [],
        winningPositions := winningPositions }

/-- The state update performed by `handlePieceSelection` (App
component): after the guards, set the chosen piece and flip the acting
identity; `none` models the early returns that leave the state
untouched. -/
def handlePieceSelectionUpdate (aiProcessing : Bool) (piece : Piece) (s : GameState) :
    Option GameState :=
  if s.gameOver = true ∨ s.currentPiece ≠ none then none
  else if s.gameMode = GameMode.vsAI ∧ aiProcessing = true then none
  else if s.gameMode = GameMode.vsAI ∧ s.currentPlayer = 2 ∧ s.currentPiece = none then none
  else if s.gameMode = GameMode.online ∧ onlineTurnMismatch s = true then none
  else some { s with
    currentPiece := some piece,
    currentPlayer := if s.currentPlayer = 1 then 2 else 1 }

/-! Model of untyped JavaScript values, as needed by the board
normalization of gameLogic.ts: null, undefined, numbers, booleans,
arrays, and objects with integer-like keys (the shapes Firebase
produces for boards and rows). -/

inductive JsVal where
  | nullV
  | undefV
  | numV (n : Nat)
  | boolV (b : Bool)
  | arrV (elems : List JsVal)
  | objV (fields : List (Nat × JsVal))

/-- JavaScript property read `obj[i]` on an object: the stored value, or
undefined when the key is absent. -/
def jsGet (fields : List (Nat × JsVal)) (i : Nat) : JsVal :=
  match fields.find? (fun kv => kv.1 == i) with
  | some kv => kv.2
  | none => JsVal.undefV

/-- JavaScript truthiness of the modelled values. -/
def jsTruthy : JsVal → Bool
  | JsVal.nullV => false
  | JsVal.undefV => false
  | JsVal.numV n => n != 0
  | JsVal.boolV b => b
  | JsVal.arrV _ => true
  | JsVal.objV _ => true

/-- Cell cleanup in normalizeBoard:
`(cell === undefined || cell === null) ? null : cell`. -/
def normalizeCell (v : JsVal) : JsVal :=
  match v with
  | JsVal.undefV => JsVal.nullV
  | JsVal.nullV => JsVal.nullV
  | other => other

/-- gameLogic.ts `convertRowToArray`: length-4 array built from an
object-like row, `rowObj[i] !== undefined ? rowObj[i] : null`. -/
def convertRowToArray (fields : List (Nat × JsVal)) : List JsVal :=
  (List.range BOARD_SIZE).map fun i =>
    match jsGet fields i with
    | JsVal.undefV => JsVal.nullV
    | v => v

/-- Empty board as a JavaScript value (`initializeBoard`). -/
def initializeBoardJs : JsVal :=
  JsVal.arrV (List.replicate BOARD_SIZE (JsVal.arrV (List.replicate BOARD_SIZE JsVal.nullV)))

/-- Row of four nulls (`Array(BOARD_SIZE).fill(null)`). -/
def nullRowJs : JsVal := JsVal.arrV (List.replicate BOARD_SIZE JsVal.nullV)

/-- One row of the array branch of `normalizeBoard`: arrays are copied
with cell cleanup, object-like rows are converted, anything else
becomes an empty row.  Among the modelled values exactly the objects
pass the JavaScript test `row && typeof row === object`. -/
def normalizeRowFromArray (row : JsVal) : JsVal :=
  match row with
  | JsVal.arrV cells => JsVal.arrV (cells.map normalizeCell)
  | JsVal.objV fields => JsVal.arrV (convertRowToArray fields)
  | _ => nullRowJs

/-- One row of the object branch of `normalizeBoard`: the row data must
be truthy, then arrays are copied with cell cleanup, objects converted,
anything else becomes an empty row. -/
def normalizeRowFromObj (rowData : JsVal) : JsVal :=
  if jsTruthy rowData then
    match rowData with
    | JsVal.arrV cells => JsVal.arrV (cells.map normalizeCell)
    | JsVal.objV fields => JsVal.arrV (convertRowToArray fields)
    | _ => nullRowJs
  else nullRowJs

/-- gameLogic.ts `normalizeBoard`: falsy input gives an empty board; an
array input is rebuilt row by row (indices 0..3, missing rows read as
undefined); an object input is rebuilt from its integer keys; any other
value falls through to an empty board. -/
def normalizeBoard (board : JsVal) : JsVal :=
  if ¬ jsTruthy board then initializeBoardJs
  else match board with
  | JsVal.arrV rows =>
    JsVal.arrV ((List.range BOARD_SIZE).map fun i =>
      normalizeRowFromArray (rows.getD i JsVal.undefV))
  | JsVal.objV fields =>
    JsVal.arrV ((List.range BOARD_SIZE).map fun i =>
      normalizeRowFromObj (jsGet fields i))
  | _ => initializeBoardJs

/-! Embedding of the online synchronization: the action sequence guard
(App component polling callback over onlineLogic.ts `GameAction`), the
remote snapshot adoption, and the outbound `updateGameState` payload. -/

/-- Action kinds (onlineLogic.ts `GameAction.type`). -/
inductive ActionType where
  | placePiece
  | selectPiece
deriving DecidableEq

/-- Discrete game action as shared through the room (onlineLogic.ts
`GameAction`; the payload fields do not participate in ordering and are
left out of the ordering model). -/
structure GameAction where
  type : ActionType
  timestamp : Int
  sequenceId : Int
deriving DecidableEq

/-- Receive-side guard of the polling callback: an incoming
lastAction is applied exactly when its sequence number is strictly
greater than the last processed one, which is then advanced; the
function returns the sub-list of applied actions for a whole delivery
order. -/
def applyDeliveries (lastProcessed : Int) : List GameAction → List GameAction
  | [] => []
  | a :: rest =>
    if lastProcessed < a.sequenceId then a :: applyDeliveries a.sequenceId rest
    else applyDeliveries lastProcessed rest

/-- Client-local game state during online play, on the sync path: the
board travels as a raw JavaScript value, the remaining fields as their
typed values; `onlineRoom` is the purely local connection info. -/
structure LocalSyncState where
  board : JsVal
  availablePieces : JsVal
  currentPiece : Option Piece
  currentPlayer : Nat
  winner : Option Nat
  gameOver : Bool
  winningPositions : Option (List WinningPosition)
  victoryOptions : VictoryOptions
  gameMode : GameMode
  onlineRoom : Option OnlineRoomInfo

/-- What onlineLogic.ts `updateGameState` writes to the shared store:
every game state field except `onlineRoom`, with the board normalized
before sending. -/
structure StoredGameState where
  board : JsVal
  availablePieces : JsVal
  currentPiece : Option Piece
  currentPlayer : Nat
  winner : Option Nat
  gameOver : Bool
  winningPositions : Option (List WinningPosition)
  victoryOptions : VictoryOptions
  gameMode : GameMode

/-- onlineLogic.ts `updateGameState`: destructure `onlineRoom` away,
normalize the board, and send the rest wholesale (removeUndefined is
the identity on these typed fields). -/
def updateGameStatePayload (s : LocalSyncState) : StoredGameState :=
  { board := normalizeBoard s.board,
    availablePieces := s.availablePieces,
    currentPiece := s.currentPiece,
    currentPlayer := s.currentPlayer,
    winner := s.winner,
    gameOver := s.gameOver,
    winningPositions := s.winningPositions,
    victoryOptions := s.victoryOptions,
    gameMode := s.gameMode }

/-- Keys of an object in ascending order up to its largest key:
JavaScript for-in order over integer-like keys. -/
def objDenseValues (fields : List (Nat × JsVal)) : List JsVal :=
  match (fields.map Prod.fst).max? with
  | none => []
  | some m =>
    (List.range (m + 1)).filterMap fun k =>
      match fields.find? (fun kv => kv.1 == k) with
      | some kv => match kv.2 with
        | JsVal.undefV => none
        | v => some v
      | none => none

/-- App component `normalizeAvailablePieces`: falsy gives the empty
list, an array is kept, an object is rebuilt into a dense array indexed
by its integer keys with undefined entries filtered out. -/
def normalizeAvailablePieces (pieces : JsVal) : JsVal :=
  if ¬ jsTruthy pieces then JsVal.arrV []
  else match pieces with
  | JsVal.arrV elems => JsVal.arrV elems
  | JsVal.objV fields => JsVal.arrV (objDenseValues fields)
  | _ => JsVal.arrV []

/-- Remote snapshot as read from the shared store.  A field wrapped in
`Option` models presence: `some v` when the property is present in the
snapshot object (the JavaScript `in` test), `none` when absent; for the
nullable fields the inner `Option` is the value itself, so
`some none` is an explicitly null field. -/
structure RemoteSnapshot where
  board : JsVal
  availablePieces : Option JsVal
  currentPiece : Option (Option Piece)
  currentPlayer : Option Nat
  winner : Option (Option Nat)
  gameOver : Option Bool
  winningPositions : Option (Option (List WinningPosition))
  victoryOptions : Option VictoryOptions

/-- Snapshot adoption in the polling callback of the App component (the
no-pending-write branch): normalize and adopt the remote board, adopt
every present remote field (falling back to the previous value only
when the property is absent), force online mode, and preserve the local
`onlineRoom`. -/
def applyRemoteSnapshot (prev : LocalSyncState) (remote : RemoteSnapshot) :
    LocalSyncState :=
  { board := normalizeBoard remote.board,
    availablePieces :=
      match remote.availablePieces with
      | some v => normalizeAvailablePieces v
      | none => prev.availablePieces,
    currentPiece := remote.currentPiece.getD prev.currentPiece,
    currentPlayer := remote.currentPlayer.getD prev.currentPlayer,
    winner := remote.winner.getD prev.winner,
    gameOver := remote.gameOver.getD prev.gameOver,
    winningPositions := remote.winningPositions.getD prev.winningPositions,
    victoryOptions := remote.victoryOptions.getD prev.victoryOptions,
    gameMode := GameMode.online,
    onlineRoom := prev.onlineRoom }

/-- Whole polling callback step for game state sync: skip everything
while a local write is pending, skip when the room has no game state,
otherwise adopt the snapshot. -/
def gameStatePollStep (pendingWrite : Bool) (remote : Option RemoteSnapshot)
    (prev : LocalSyncState) : LocalSyncState :=
  if pendingWrite then prev
  else match remote with
  | none => prev
  | some r => applyRemoteSnapshot prev r

/-- Specification predicate for the AI safety claims: a piece is safe on
a board when no empty cell lets the opponent win immediately with it. -/
def SafePiece (b : Board) (opts : VictoryOptions) (p : Piece) : Prop :=
  ∀ q ∈ getEmptyPositions b, (wouldWin b q.1 q.2 p opts).1 = false

instance (b : Board) (opts : VictoryOptions) (p : Piece) :
    Decidable (SafePiece b opts p) := by
  unfold SafePiece; infer_instance

/-- Example delivery order of claim C6: seq 3, then seq 1, then seq 2. -/
def exampleDeliveries : List GameAction :=
  [⟨ActionType.placePiece, 0, 3⟩, ⟨ActionType.selectPiece, 1, 1⟩,
   ⟨ActionType.placePiece, 2, 2⟩]

/-- A normalized row: an array whose cells are never undefined. -/
def CleanRow (r : JsVal) : Prop :=
  ∃ cells, r = JsVal.arrV cells ∧ ∀ c ∈ cells, c ≠ JsVal.undefV

/-! Helper lemmas. -/

theorem find?_congr_mem {α : Type} {p q : α → Bool} :
    ∀ (l : List α), (∀ a ∈ l, p a = q a) → l.find? p = l.find? q := by
  intro l
  induction l with
  | nil => intro _; rfl
  | cons a t ih =>
    intro h
    rw [List.find?_cons, List.find?_cons, h a (List.mem_cons_self a t),
      ih fun x hx => h x (List.mem_cons_of_mem a hx)]

theorem findSome?_congr_mem {α β : Type} {f g : α → Option β} :
    ∀ (l : List α), (∀ a ∈ l, f a = g a) → l.findSome? f = l.findSome? g := by
  intro l
  induction l with
  | nil => intro _; rfl
  | cons a t ih =>
    intro h
    rw [List.findSome?_cons, List.findSome?_cons, h a (List.mem_cons_self a t),
      ih fun x hx => h x (List.mem_cons_of_mem a hx)]

theorem findSome?_guard_map {α β : Type} (p : α → Bool) (f : α → β) :
    ∀ l : List α,
      (l.findSome? fun a => if p a then some (f a) else none) = (l.find? p).map f := by
  intro l
  induction l with
  | nil => rfl
  | cons a t ih =>
    by_cases h : p a = true
    · simp [List.findSome?_cons, List.find?_cons, h]
    · rw [Bool.not_eq_true] at h
      simp [List.findSome?_cons, List.find?_cons, h, ih]

theorem find?_flatMap {α β : Type} (p : β → Bool) (g : α → List β) :
    ∀ l : List α, (l.flatMap g).find? p = l.findSome? fun a => (g a).find? p := by
  intro l
  induction l with
  | nil => rfl
  | cons a t ih =>
    rw [List.flatMap_cons, List.find?_append, List.findSome?_cons, ih]
    cases (g a).find? p <;> simp [Option.or]

theorem list_len4_eq {α : Type} (l : List α) (h : l.length = 4) (d : α) :
    l = [l.getD 0 d, l.getD 1 d, l.getD 2 d, l.getD 3 d] := by
  rcases l with _ | ⟨a, _ | ⟨b, _ | ⟨c, _ | ⟨e, rest⟩⟩⟩⟩ <;> simp_all

/-- Bit test through the mask arithmetic of checkCommonAttribute. -/
theorem and_shift_ne_zero (p b : Nat) : (p &&& (1 <<< b) ≠ 0) ↔ p.testBit b = true := by
  rw [Nat.one_shiftLeft, Nat.and_two_pow]
  cases h : p.testBit b <;> simp [h, Nat.pow_eq_zero]

theorem and_shift_eq_zero (p b : Nat) : (p &&& (1 <<< b) = 0) ↔ p.testBit b = false := by
  rw [← Bool.not_eq_true, ← and_shift_ne_zero p b]; tauto

/-! Claim theorems. -/

/-- C2.  For all four pieces in [0, 16), `checkCommonAttribute` returns
true iff some bit position b in \x7b0, 1, 2, 3\x7d is set in all four
pieces or clear in all four pieces. -/
theorem spec2proof_c2 (p1 p2 p3 p4 : Piece)
    (h1 : p1 < 16) (h2 : p2 < 16) (h3 : p3 < 16) (h4 : p4 < 16) :
    checkCommonAttribute p1 p2 p3 p4 = true ↔
      ∃ b, b < 4 ∧
        ((p1.testBit b = true ∧ p2.testBit b = true ∧
          p3.testBit b = true ∧ p4.testBit b = true) ∨
         (p1.testBit b = false ∧ p2.testBit b = false ∧
          p3.testBit b = false ∧ p4.testBit b = false)) := by
  rw [checkCommonAttribute, List.any_eq_true]
  simp only [List.mem_range, Bool.or_eq_true, Bool.and_eq_true, decide_eq_true_eq,
    and_shift_ne_zero, and_shift_eq_zero, and_assoc]

/-- Witness for C2 at pieces 5, 7, 13, 15 (all share bit 0). -/
theorem spec2proof_c2_witness :
    checkCommonAttribute 5 7 13 15 = true ↔
      ∃ b, b < 4 ∧
        ((Nat.testBit 5 b = true ∧ Nat.testBit 7 b = true ∧
          Nat.testBit 13 b = true ∧ Nat.testBit 15 b = true) ∨
         (Nat.testBit 5 b = false ∧ Nat.testBit 7 b = false ∧
          Nat.testBit 13 b = false ∧ Nat.testBit 15 b = false)) :=
  spec2proof_c2 5 7 13 15 (by decide) (by decide) (by decide) (by decide)

/-- Applied sequence ids always form a strictly increasing chain above
the initial last-processed value. -/
theorem applyDeliveries_chain (l : List GameAction) :
    ∀ init : Int,
      List.Chain (fun x y => x < y) init
        ((applyDeliveries init l).map GameAction.sequenceId) := by
  induction l with
  | nil => intro init; exact List.Chain.nil
  | cons a t ih =>
    intro init
    rw [applyDeliveries]
    by_cases h : init < a.sequenceId
    · rw [if_pos h, List.map_cons]
      exact List.Chain.cons h (ih a.sequenceId)
    · rw [if_neg h]
      exact ih init

/-- C6.  A peer only applies actions whose sequence number strictly
exceeds the last one applied: over any delivery order the applied
sequence numbers form a strictly increasing chain above the prior
applied maximum, and on the delivery order seq 3, seq 1, seq 2 with
prior maximum below 3, only the seq 3 action is applied and the stale
deliveries 1 and 2 are discarded. -/
theorem spec2proof_c6 :
    (∀ (init : Int) (deliveries : List GameAction),
        List.Chain (fun x y => x < y) init
          ((applyDeliveries init deliveries).map GameAction.sequenceId)) ∧
    (∀ init : Int, init < 3 →
        applyDeliveries init exampleDeliveries =
          [⟨ActionType.placePiece, 0, 3⟩]) := by
  constructor
  · intro init deliveries; exact applyDeliveries_chain deliveries init
  · intro init h
    rw [exampleDeliveries, applyDeliveries, if_pos h]
    norm_num [applyDeliveries]

/-- Witness for C6 at prior maximum -1 (the initial value of the
last-processed reference). -/
theorem spec2proof_c6_witness :
    List.Chain (fun x y => x < y) (-1 : Int)
        ((applyDeliveries (-1) exampleDeliveries).map GameAction.sequenceId) ∧
    applyDeliveries (-1) exampleDeliveries = [⟨ActionType.placePiece, 0, 3⟩] :=
  ⟨spec2proof_c6.1 (-1) exampleDeliveries, spec2proof_c6.2 (-1) (by norm_num)⟩

/-- C3.  The acting identity is unchanged by an accepted placement and
flipped (1 to 2, 2 to 1) by an accepted piece selection. -/
theorem spec2proof_c3 :
    (∀ (ai : Bool) (row col : Nat) (s : GameState),
        placementAccepted ai row col s →
        (handleBoardClickUpdate ai row col s).currentPlayer = s.currentPlayer) ∧
    (∀ (ai : Bool) (piece : Piece) (s s' : GameState),
        handlePieceSelectionUpdate ai piece s = some s' →
        s'.currentPlayer = if s.currentPlayer = 1 then 2 else 1) := by
  constructor
  · intro ai row col s h
    obtain ⟨hrow, hcol, hai, hguard, honline⟩ := h
    have hb : ¬ (BOARD_SIZE ≤ row ∨ BOARD_SIZE ≤ col) := by
      rintro (hx | hx) <;> omega
    rw [handleBoardClickUpdate, if_neg hb, if_neg hai, if_neg hguard, if_neg honline]
    rcases hcp : s.currentPiece with _ | piece
    · exact absurd (Or.inr (Or.inl hcp)) hguard
    · simp only [hcp]
  · intro ai piece s s' h
    rw [handlePieceSelectionUpdate] at h
    split_ifs at h with h1 h2 h3 h4 h5 <;>
      first
      | exact Option.noConfusion h
      | (injection h with h; rw [← h]; simp [h5])

/-- Witness for C3: a concrete accepted placement and a concrete
accepted selection, in two-player mode. -/
theorem spec2proof_c3_witness :
    (handleBoardClickUpdate false 0 0
        { board := initializeBoard, availablePieces := [1, 2], currentPiece := some 1,
          currentPlayer := 2, winner := none, gameOver := false,
          gameMode := GameMode.twoPlayer, victoryOptions := ⟨true, false⟩,
          winningPositions := none, onlineRoom := none }).currentPlayer = 2 ∧
    (∀ s' : GameState,
      handlePieceSelectionUpdate false 5
        { board := initializeBoard, availablePieces := [5, 6], currentPiece := none,
          currentPlayer := 2, winner := none, gameOver := false,
          gameMode := GameMode.twoPlayer, victoryOptions := ⟨true, false⟩,
          winningPositions := none, onlineRoom := none } = some s' →
      s'.currentPlayer = 1) := by
  constructor
  · exact spec2proof_c3.1 false 0 0 _ (by decide)
  · intro s' h
    have := spec2proof_c3.2 false 5 _ s' h
    simpa using this

/-- C9 counterexample: on the empty 4x4 board, the out-of-range column
access (0, 4) silently returns the normal boolean false instead of
failing loudly. -/
theorem spec2proof_c9_counterexample :
    isPositionEmpty initializeBoard 0 4 = Except.ok false := by decide

/-- C9 amended.  On a well-formed board an out-of-range row index makes
`isPositionEmpty` throw (reading a property of undefined), but an
in-range row with an out-of-range column silently returns false. -/
theorem spec2proof_c9_amended (b : Board) (row col : Int) (h : WellFormed b) :
    ((row < 0 ∨ 4 ≤ row) → isPositionEmpty b row col = Except.error ()) ∧
    (0 ≤ row → row < 4 → (col < 0 ∨ 4 ≤ col) →
      isPositionEmpty b row col = Except.ok false) := by
  obtain ⟨hlen, hrows⟩ := h
  constructor
  · intro hr
    have hnone : jsIndex b row = none := by
      unfold jsIndex
      rw [dif_neg]
      rintro ⟨h0, hlt⟩
      omega
    unfold isPositionEmpty
    rw [hnone]
  · intro h0 h4 hc
    have hcond : 0 ≤ row ∧ row.toNat < b.length := by rw [hlen]; omega
    obtain ⟨r, hjr, hrmem⟩ : ∃ r, jsIndex b row = some r ∧ r ∈ b := by
      unfold jsIndex
      rw [dif_pos hcond]
      exact ⟨_, rfl, List.get_mem _ _ _⟩
    have hrl : r.length = 4 := hrows r hrmem
    have hnone : jsIndex r col = none := by
      unfold jsIndex
      rw [dif_neg]
      rintro ⟨hc0, hclt⟩
      omega
    unfold isPositionEmpty
    rw [hjr]
    simp [hnone]

/-- Witness for the amended C9: row -1 throws, column 5 in row 0 gives
the silent false. -/
theorem spec2proof_c9_amended_witness :
    isPositionEmpty initializeBoard (-1) 0 = Except.error () ∧
    isPositionEmpty initializeBoard 0 5 = Except.ok false :=
  ⟨(spec2proof_c9_amended initializeBoard (-1) 0 (by decide)).1 (by norm_num),
   (spec2proof_c9_amended initializeBoard 0 5 (by decide)).2 (by norm_num) (by norm_num)
     (by norm_num)⟩

/-- C7.  When a snapshot with all shared fields present is adopted with
no pending local write, every shared field of the resulting state comes
from the snapshot (the board and pool through their normalizers, the
in-hand piece even when explicitly null), the local onlineRoom survives
unchanged, and the outbound payload of updateGameState is independent
of onlineRoom. -/
theorem spec2proof_c7 :
    (∀ (prev : LocalSyncState) (remote : RemoteSnapshot) (ap : JsVal)
        (cp : Option Piece) (pl : Nat) (w : Option Nat) (go : Bool)
        (wp : Option (List WinningPosition)) (vo : VictoryOptions),
        remote.availablePieces = some ap →
        remote.currentPiece = some cp →
        remote.currentPlayer = some pl →
        remote.winner = some w →
        remote.gameOver = some go →
        remote.winningPositions = some wp →
        remote.victoryOptions = some vo →
        (gameStatePollStep false (some remote) prev).board = normalizeBoard remote.board ∧
        (gameStatePollStep false (some remote) prev).availablePieces =
          normalizeAvailablePieces ap ∧
        (gameStatePollStep false (some remote) prev).currentPiece = cp ∧
        (gameStatePollStep false (some remote) prev).currentPlayer = pl ∧
        (gameStatePollStep false (some remote) prev).winner = w ∧
        (gameStatePollStep false (some remote) prev).gameOver = go ∧
        (gameStatePollStep false (some remote) prev).winningPositions = wp ∧
        (gameStatePollStep false (some remote) prev).victoryOptions = vo ∧
        (gameStatePollStep false (some remote) prev).onlineRoom = prev.onlineRoom) ∧
    (∀ (s : LocalSyncState) (r : Option OnlineRoomInfo),
        updateGameStatePayload { s with onlineRoom := r } = updateGameStatePayload s) := by
  constructor
  · intro prev remote ap cp pl w go wp vo hap hcp hpl hw hgo hwp hvo
    simp [gameStatePollStep, applyRemoteSnapshot, hap, hcp, hpl, hw, hgo, hwp, hvo]
  · intro s r; rfl

/-- Witness for C7: a concrete snapshot carrying an explicitly null
in-hand piece, adopted over a concrete previous state. -/
theorem spec2proof_c7_witness :
    (gameStatePollStep false
        (some { board := initializeBoardJs, availablePieces := some (JsVal.arrV []),
                currentPiece := some none, currentPlayer := some 2,
                winner := some none, gameOver := some false,
                winningPositions := some none, victoryOptions := some ⟨true, true⟩ })
        { board := initializeBoardJs, availablePieces := JsVal.arrV [],
          currentPiece := some 3, currentPlayer := 1, winner := none,
          gameOver := false, winningPositions := none,
          victoryOptions := ⟨true, false⟩, gameMode := GameMode.online,
          onlineRoom := some ⟨"ROOM42", 1, true⟩ }).currentPiece = none ∧
    (gameStatePollStep false
        (some { board := initializeBoardJs, availablePieces := some (JsVal.arrV []),
                currentPiece := some none, currentPlayer := some 2,
                winner := some none, gameOver := some false,
                winningPositions := some none, victoryOptions := some ⟨true, true⟩ })
        { board := initializeBoardJs, availablePieces := JsVal.arrV [],
          currentPiece := some 3, currentPlayer := 1, winner := none,
          gameOver := false, winningPositions := none,
          victoryOptions := ⟨true, false⟩, gameMode := GameMode.online,
          onlineRoom := some ⟨"ROOM42", 1, true⟩ }).onlineRoom =
      some ⟨"ROOM42", 1, true⟩ := by
  refine ⟨?_, ?_⟩
  · exact (spec2proof_c7.1 _ _ _ _ _ _ _ _ _ rfl rfl rfl rfl rfl rfl rfl).2.2.1
  · exact (spec2proof_c7.1 _ _ _ _ _ _ _ _ _ rfl rfl rfl rfl rfl rfl rfl).2.2.2.2.2.2.2.2

/-! Lemmas for claim C8 (idempotence of normalizeBoard). -/

theorem normalizeCell_ne_undef (v : JsVal) : normalizeCell v ≠ JsVal.undefV := by
  cases v <;> simp [normalizeCell]

theorem normalizeCell_eq_self {v : JsVal} (h : v ≠ JsVal.undefV) : normalizeCell v = v := by
  cases v <;> first | rfl | exact absurd rfl h

theorem convertRowToArray_clean (fields : List (Nat × JsVal)) :
    ∀ c ∈ convertRowToArray fields, c ≠ JsVal.undefV := by
  intro c hc
  rw [convertRowToArray, List.mem_map] at hc
  obtain ⟨i, _, hi⟩ := hc
  rw [← hi]
  cases jsGet fields i <;> simp

theorem nullRowJs_clean : CleanRow nullRowJs :=
  ⟨List.replicate BOARD_SIZE JsVal.nullV, rfl, by
    intro c hc
    rw [List.eq_of_mem_replicate hc]
    simp⟩

theorem normalizeRowFromArray_clean (row : JsVal) : CleanRow (normalizeRowFromArray row) := by
  cases row with
  | arrV cells =>
    refine ⟨cells.map normalizeCell, rfl, ?_⟩
    intro c hc
    rw [List.mem_map] at hc
    obtain ⟨x, _, hx⟩ := hc
    rw [← hx]
    exact normalizeCell_ne_undef x
  | objV fields => exact ⟨convertRowToArray fields, rfl, convertRowToArray_clean fields⟩
  | nullV => exact nullRowJs_clean
  | undefV => exact nullRowJs_clean
  | numV n => exact nullRowJs_clean
  | boolV b => exact nullRowJs_clean

theorem normalizeRowFromObj_cases (v : JsVal) :
    normalizeRowFromObj v = if jsTruthy v then normalizeRowFromArray v else nullRowJs := by
  cases v <;> simp [normalizeRowFromObj, normalizeRowFromArray, jsTruthy]

theorem normalizeRowFromObj_clean (rowData : JsVal) : CleanRow (normalizeRowFromObj rowData) := by
  rw [normalizeRowFromObj_cases]
  by_cases h : jsTruthy rowData = true
  · rw [if_pos h]
    exact normalizeRowFromArray_clean rowData
  · rw [if_neg h]
    exact nullRowJs_clean

theorem initializeBoardJs_shape :
    ∃ rows, initializeBoardJs = JsVal.arrV rows ∧ rows.length = 4 ∧
      ∀ r ∈ rows, CleanRow r := by
  refine ⟨List.replicate BOARD_SIZE nullRowJs, rfl, rfl, ?_⟩
  intro r hr
  rw [List.eq_of_mem_replicate hr]
  exact nullRowJs_clean

theorem normalizeBoard_arr (rows : List JsVal) :
    normalizeBoard (JsVal.arrV rows) =
      JsVal.arrV ((List.range BOARD_SIZE).map fun i =>
        normalizeRowFromArray (rows.getD i JsVal.undefV)) := rfl

theorem normalizeBoard_obj (fields : List (Nat × JsVal)) :
    normalizeBoard (JsVal.objV fields) =
      JsVal.arrV ((List.range BOARD_SIZE).map fun i =>
        normalizeRowFromObj (jsGet fields i)) := rfl

/-- Every output of normalizeBoard is a length-4 array of clean rows. -/
theorem normalizeBoard_shape (x : JsVal) :
    ∃ rows, normalizeBoard x = JsVal.arrV rows ∧ rows.length = 4 ∧
      ∀ r ∈ rows, CleanRow r := by
  cases x with
  | arrV rows0 =>
    rw [normalizeBoard_arr]
    refine ⟨_, rfl, by simp [BOARD_SIZE], ?_⟩
    intro r hr
    rw [List.mem_map] at hr
    obtain ⟨i, _, hi⟩ := hr
    rw [← hi]
    exact normalizeRowFromArray_clean _
  | objV fields =>
    rw [normalizeBoard_obj]
    refine ⟨_, rfl, by simp [BOARD_SIZE], ?_⟩
    intro r hr
    rw [List.mem_map] at hr
    obtain ⟨i, _, hi⟩ := hr
    rw [← hi]
    exact normalizeRowFromObj_clean _
  | nullV =>
    have h : normalizeBoard JsVal.nullV = initializeBoardJs := rfl
    rw [h]; exact initializeBoardJs_shape
  | undefV =>
    have h : normalizeBoard JsVal.undefV = initializeBoardJs := rfl
    rw [h]; exact initializeBoardJs_shape
  | numV n =>
    have h : normalizeBoard (JsVal.numV n) = initializeBoardJs := by
      by_cases h : n = 0 <;> simp [normalizeBoard, jsTruthy, h]
    rw [h]; exact initializeBoardJs_shape
  | boolV b =>
    have h : normalizeBoard (JsVal.boolV b) = initializeBoardJs := by
      cases b <;> simp [normalizeBoard, jsTruthy]
    rw [h]; exact initializeBoardJs_shape

/-- normalizeBoard fixes any length-4 array of clean rows. -/
theorem normalizeBoard_fix (rows : List JsVal) (hlen : rows.length = 4)
    (hclean : ∀ r ∈ rows, CleanRow r) :
    normalizeBoard (JsVal.arrV rows) = JsVal.arrV rows := by
  rw [normalizeBoard_arr]
  congr 1
  refine List.ext_get (by simp [BOARD_SIZE, hlen]) ?_
  intro i h1 h2
  rw [List.get_map]
  have hget : (List.range BOARD_SIZE).get ⟨i, by simpa using h1⟩ = i := by
    simp
  rw [hget]
  have hgd : rows.getD i JsVal.undefV = rows.get ⟨i, h2⟩ :=
    List.getD_eq_get rows JsVal.undefV h2
  rw [hgd]
  obtain ⟨cells, hc, hcu⟩ := hclean _ (List.get_mem rows i h2)
  rw [hc, normalizeRowFromArray]
  congr 1
  calc cells.map normalizeCell
      = cells.map id := List.map_congr_left fun c hcm => normalizeCell_eq_self (hcu c hcm)
    _ = cells := List.map_id cells

/-- C8.  Board normalization is idempotent on every modelled JavaScript
value, in particular on well-formed nested arrays, sparse object-encoded
boards or rows, and null or undefined inputs. -/
theorem spec2proof_c8 (x : JsVal) :
    normalizeBoard (normalizeBoard x) = normalizeBoard x := by
  obtain ⟨rows, hx, hlen, hclean⟩ := normalizeBoard_shape x
  rw [hx, normalizeBoard_fix rows hlen hclean]

/-! Lemmas for claim C1 (checkVictory equals the spec-ordered scan). -/

theorem checkLine_explicit (b : Board) (q1 q2 q3 q4 : WinningPosition) :
    checkLine [getCell b q1.row q1.col, getCell b q2.row q2.col,
               getCell b q3.row q3.col, getCell b q4.row q4.col]
      = candidateWins b [q1, q2, q3, q4] := by
  simp only [candidateWins, List.map_cons, List.map_nil]
  generalize getCell b q1.row q1.col = c1
  generalize getCell b q2.row q2.col = c2
  generalize getCell b q3.row q3.col = c3
  generalize getCell b q4.row q4.col = c4
  cases c1 <;> cases c2 <;> cases c3 <;> cases c4 <;> simp [checkLine]

theorem row_explicit (b : Board) (h : WellFormed b) (r : Nat) (hr : r < 4) :
    b.getD r [] = [getCell b r 0, getCell b r 1, getCell b r 2, getCell b r 3] := by
  obtain ⟨hlen, hrows⟩ := h
  have hrl : r < b.length := by omega
  have hmem : b.getD r [] ∈ b := by
    rw [List.getD_eq_getElem b [] hrl]
    exact List.getElem_mem hrl
  exact list_len4_eq (b.getD r []) (hrows _ hmem) none

theorem rows_segment (b : Board) (h : WellFormed b) :
    ((List.range BOARD_SIZE).findSome? fun row =>
        if checkLine (b.getD row []) then
          some [(⟨row, 0⟩ : WinningPosition), ⟨row, 1⟩, ⟨row, 2⟩, ⟨row, 3⟩] else none)
      = ((List.range 4).map rowCandidate).find? (candidateWins b) := by
  have h1 : ((List.range BOARD_SIZE).findSome? fun row =>
      if checkLine (b.getD row []) then
        some [(⟨row, 0⟩ : WinningPosition), ⟨row, 1⟩, ⟨row, 2⟩, ⟨row, 3⟩] else none)
      = (List.range BOARD_SIZE).findSome? fun row =>
        if (fun r => checkLine (b.getD r [])) row then some (rowCandidate row) else none := rfl
  rw [h1, findSome?_guard_map, List.find?_map]
  congr 1
  apply find?_congr_mem
  intro r hr
  rw [List.mem_range] at hr
  rw [row_explicit b h r (by exact hr)]
  exact checkLine_explicit b ⟨r, 0⟩ ⟨r, 1⟩ ⟨r, 2⟩ ⟨r, 3⟩

theorem cols_segment (b : Board) :
    ((List.range BOARD_SIZE).findSome? fun col =>
        if checkLine [getCell b 0 col, getCell b 1 col, getCell b 2 col, getCell b 3 col] then
          some [(⟨0, col⟩ : WinningPosition), ⟨1, col⟩, ⟨2, col⟩, ⟨3, col⟩] else none)
      = ((List.range 4).map colCandidate).find? (candidateWins b) := by
  have h1 : ((List.range BOARD_SIZE).findSome? fun col =>
      if checkLine [getCell b 0 col, getCell b 1 col, getCell b 2 col, getCell b 3 col] then
        some [(⟨0, col⟩ : WinningPosition), ⟨1, col⟩, ⟨2, col⟩, ⟨3, col⟩] else none)
      = (List.range BOARD_SIZE).findSome? fun col =>
        if (fun c => checkLine [getCell b 0 c, getCell b 1 c, getCell b 2 c, getCell b 3 c]) col
        then some (colCandidate col) else none := rfl
  rw [h1, findSome?_guard_map, List.find?_map]
  congr 1
  apply find?_congr_mem
  intro c hc
  exact checkLine_explicit b ⟨0, c⟩ ⟨1, c⟩ ⟨2, c⟩ ⟨3, c⟩

theorem diag_segment (b : Board) :
    (if checkLine [getCell b 0 0, getCell b 1 1, getCell b 2 2, getCell b 3 3] then
       some [(⟨0, 0⟩ : WinningPosition), ⟨1, 1⟩, ⟨2, 2⟩, ⟨3, 3⟩]
     else if checkLine [getCell b 0 3, getCell b 1 2, getCell b 2 1, getCell b 3 0] then
       some [(⟨0, 3⟩ : WinningPosition), ⟨1, 2⟩, ⟨2, 1⟩, ⟨3, 0⟩]
     else none)
      = [diagCandidate, antiDiagCandidate].find? (candidateWins b) := by
  have hd : candidateWins b diagCandidate
      = checkLine [getCell b 0 0, getCell b 1 1, getCell b 2 2, getCell b 3 3] :=
    (checkLine_explicit b ⟨0, 0⟩ ⟨1, 1⟩ ⟨2, 2⟩ ⟨3, 3⟩).symm
  have ha : candidateWins b antiDiagCandidate
      = checkLine [getCell b 0 3, getCell b 1 2, getCell b 2 1, getCell b 3 0] :=
    (checkLine_explicit b ⟨0, 3⟩ ⟨1, 2⟩ ⟨2, 1⟩ ⟨3, 0⟩).symm
  rw [List.find?_cons, hd]
  cases h1 : checkLine [getCell b 0 0, getCell b 1 1, getCell b 2 2, getCell b 3 3]
  · rw [List.find?_cons, ha]
    cases h2 : checkLine [getCell b 0 3, getCell b 1 2, getCell b 2 1, getCell b 3 0] <;>
      simp [diagCandidate, antiDiagCandidate]
  · simp [diagCandidate]

theorem checkLinesVictory_eq (b : Board) (h : WellFormed b) :
    checkLinesVictory b = lineCandidates.find? (candidateWins b) := by
  unfold checkLinesVictory
  rw [rows_segment b h, cols_segment b, diag_segment b]
  rw [lineCandidates, List.find?_append, List.find?_append]
  cases hA : ((List.range 4).map rowCandidate).find? (candidateWins b) <;>
    cases hB : ((List.range 4).map colCandidate).find? (candidateWins b) <;>
      simp [hA, hB, Option.or]

theorem checkSquaresVictory_eq (b : Board) :
    checkSquaresVictory b = squareCandidates.find? (candidateWins b) := by
  unfold checkSquaresVictory squareCandidates
  rw [find?_flatMap]
  apply findSome?_congr_mem
  intro r hr
  have h1 : ((List.range (BOARD_SIZE - 1)).findSome? fun col =>
      if checkLine [getCell b r col, getCell b r (col + 1),
                    getCell b (r + 1) col, getCell b (r + 1) (col + 1)] then
        some [(⟨r, col⟩ : WinningPosition), ⟨r, col + 1⟩, ⟨r + 1, col⟩, ⟨r + 1, col + 1⟩]
      else none)
      = (List.range (BOARD_SIZE - 1)).findSome? fun col =>
        if (fun c => checkLine [getCell b r c, getCell b r (c + 1),
            getCell b (r + 1) c, getCell b (r + 1) (c + 1)]) col
        then some (squareCandidate r col) else none := rfl
  rw [h1, findSome?_guard_map, List.find?_map]
  congr 1
  apply find?_congr_mem
  intro c hc
  exact checkLine_explicit b ⟨r, c⟩ ⟨r, c + 1⟩ ⟨r + 1, c⟩ ⟨r + 1, c + 1⟩

/-- C1.  On every well-formed 4x4 board and any victory options,
`checkVictory` returns exactly the first winning candidate set in the
spec scan order (rows 0..3, columns 0..3, main diagonal, anti-diagonal
when lines are enabled, then the nine 2x2 anchors row-major when
squares are enabled), where a candidate wins iff its four cells are all
occupied and share an attribute; in particular it returns none whenever
no candidate set wins. -/
theorem spec2proof_c1 (b : Board) (opts : VictoryOptions) (h : WellFormed b) :
    checkVictory b opts = specScan b opts := by
  rcases opts with ⟨l, s⟩
  unfold checkVictory specScan specCandidates
  cases l <;> cases s
  · simp
  · simp [checkSquaresVictory_eq b]
  · rw [checkLinesVictory_eq b h]
    cases hx : lineCandidates.find? (candidateWins b) <;> simp [hx]
  · rw [checkLinesVictory_eq b h, List.find?_append, checkSquaresVictory_eq b]
    cases hx : lineCandidates.find? (candidateWins b) <;> simp [hx, Option.or]

/-- Witness for C1: a board whose third row wins (pieces 0, 1, 2, 3
share the cleared bits 2 and 3), with both options enabled. -/
theorem spec2proof_c1_witness :
    checkVictory
        [[none, none, none, none],
         [none, none, none, none],
         [some 0, some 1, some 2, some 3],
         [none, none, none, none]] ⟨true, true⟩
      = specScan
        [[none, none, none, none],
         [none, none, none, none],
         [some 0, some 1, some 2, some 3],
         [none, none, none, none]] ⟨true, true⟩ :=
  spec2proof_c1 _ ⟨true, true⟩ (by decide)

/-! Lemmas for claims C4, C5 and C10 (the AI functions). -/

theorem list_set_self {α : Type} (l : List α) (i : Nat) (h : i < l.length) :
    l.set i l[i] = l := by
  apply List.ext_getElem
  · simp
  · intro n h1 h2
    by_cases hn : n = i
    · subst hn; simp [List.getElem_set_self]
    · rw [List.getElem_set_ne (fun hh => hn hh.symm)]

theorem list_getD_set_self {α : Type} (l : List α) (i : Nat) (a d : α) (h : i < l.length) :
    (l.set i a).getD i d = a := by
  rw [List.getD_eq_getElem _ _ (by simp [h]), List.getElem_set_self]

/-- Writing the same cell twice keeps only the second write. -/
theorem setCell_setCell (b : Board) (r c : Nat) (v w : BoardCell) :
    setCell (setCell b r c v) r c w = setCell b r c w := by
  by_cases hr : r < b.length
  · unfold setCell
    rw [list_getD_set_self b r _ [] hr]
    simp only [List.set_set]
  · have h1 : setCell b r c v = b := by
      unfold setCell
      exact List.set_eq_of_length_le (by omega)
    rw [h1]

/-- Writing null into an already-null cell changes nothing. -/
theorem setCell_none_of_getCell_none (b : Board) (r c : Nat)
    (h : getCell b r c = none) :
    setCell b r c none = b := by
  by_cases hr : r < b.length
  · unfold setCell
    have hrow : b.getD r [] = b[r] := List.getD_eq_getElem b [] hr
    by_cases hc : c < (b.getD r []).length
    · have hcell : (b.getD r []).getD c none = none := h
      rw [List.getD_eq_getElem _ _ hc] at hcell
      have hset : (b.getD r []).set c none = b.getD r [] := by
        conv_lhs => rw [← hcell]
        exact list_set_self _ c hc
      rw [hset, hrow]
      exact list_set_self b r hr
    · have hset : (b.getD r []).set c none = b.getD r [] :=
        List.set_eq_of_length_le (by omega)
      rw [hset, hrow]
      exact list_set_self b r hr
  · unfold setCell
    exact List.set_eq_of_length_le (by omega)

/-- The probe of wouldWin restores an empty cell before returning. -/
theorem wouldWin_snd (b : Board) (r c : Nat) (p : Piece) (opts : VictoryOptions)
    (h : getCell b r c = none) :
    (wouldWin b r c p opts).2 = b := by
  show setCell (setCell b r c (some p)) r c none = b
  rw [setCell_setCell]
  exact setCell_none_of_getCell_none b r c h

/-- Every position reported empty really holds a null cell. -/
theorem mem_getEmptyPositions {b : Board} {q : Nat × Nat}
    (h : q ∈ getEmptyPositions b) : getCell b q.1 q.2 = none := by
  unfold getEmptyPositions at h
  rw [List.mem_flatMap] at h
  obtain ⟨r, _, hr⟩ := h
  rw [List.mem_filterMap] at hr
  obtain ⟨c, _, hc⟩ := hr
  by_cases hcell : getCell b r c = none
  · rw [if_pos hcell] at hc
    injection hc with hc
    rw [← hc]
    exact hcell
  · rw [if_neg hcell] at hc
    exact Option.noConfusion hc

/-- The inner safety probe loop restores the board. -/
theorem probePiecePositions_snd (p : Piece) (opts : VictoryOptions) :
    ∀ (ps : List (Nat × Nat)) (b : Board),
      (∀ q ∈ ps, getCell b q.1 q.2 = none) →
      (probePiecePositions b p ps opts).2 = b := by
  intro ps
  induction ps with
  | nil => intro b _; rfl
  | cons q rest ih =>
    intro b hps
    have hq : getCell b q.1 q.2 = none := hps q (List.mem_cons_self q rest)
    have hww := wouldWin_snd b q.1 q.2 p opts hq
    show (if (wouldWin b q.1 q.2 p opts).1 = true then (true, (wouldWin b q.1 q.2 p opts).2)
          else probePiecePositions (wouldWin b q.1 q.2 p opts).2 p rest opts).2 = b
    by_cases hwin : (wouldWin b q.1 q.2 p opts).1 = true
    · rw [if_pos hwin]
      exact hww
    · rw [if_neg hwin, hww]
      exact ih b fun x hx => hps x (List.mem_cons_of_mem q hx)

/-- The inner safety probe loop reports whether some empty position lets
the probed piece win. -/
theorem probePiecePositions_fst (p : Piece) (opts : VictoryOptions) :
    ∀ (ps : List (Nat × Nat)) (b : Board),
      (∀ q ∈ ps, getCell b q.1 q.2 = none) →
      ((probePiecePositions b p ps opts).1 = true ↔
        ∃ q ∈ ps, (wouldWin b q.1 q.2 p opts).1 = true) := by
  intro ps
  induction ps with
  | nil => intro b _; simp [probePiecePositions]
  | cons q rest ih =>
    intro b hps
    have hq : getCell b q.1 q.2 = none := hps q (List.mem_cons_self q rest)
    have hww := wouldWin_snd b q.1 q.2 p opts hq
    have hshow : (probePiecePositions b p (q :: rest) opts).1
        = (if (wouldWin b q.1 q.2 p opts).1 = true then (true, (wouldWin b q.1 q.2 p opts).2)
           else probePiecePositions (wouldWin b q.1 q.2 p opts).2 p rest opts).1 := rfl
    rw [hshow]
    by_cases hwin : (wouldWin b q.1 q.2 p opts).1 = true
    · rw [if_pos hwin]
      constructor
      · intro _; exact ⟨q, List.mem_cons_self q rest, hwin⟩
      · intro _; rfl
    · rw [if_neg hwin, hww, ih b fun x hx => hps x (List.mem_cons_of_mem q hx)]
      constructor
      · rintro ⟨x, hx, hxw⟩
        exact ⟨x, List.mem_cons_of_mem q hx, hxw⟩
      · rintro ⟨x, hx, hxw⟩
        rcases List.mem_cons.mp hx with hx | hx
        · subst hx
          exact absurd hxw hwin
        · exact ⟨x, hx, hxw⟩

/-- The safe-reserve counting loop restores the board. -/
theorem countSafeReserve_snd (opts : VictoryOptions) (ps : List (Nat × Nat)) :
    ∀ (reserve : List Piece) (b : Board),
      (∀ q ∈ ps, getCell b q.1 q.2 = none) →
      (countSafeReserve b reserve ps opts).2 = b := by
  intro reserve
  induction reserve with
  | nil => intro b _; rfl
  | cons p rest ih =>
    intro b hps
    have hprobe := probePiecePositions_snd p opts ps b hps
    show (countSafeReserve b (p :: rest) ps opts).2 = b
    have hshow : (countSafeReserve b (p :: rest) ps opts).2
        = (countSafeReserve (probePiecePositions b p ps opts).2 rest ps opts).2 := rfl
    rw [hshow, hprobe]
    exact ih b hps

/-- The aiChoosePiece filter restores the board and computes exactly the
pieces whose probe finds no winning position. -/
theorem filterSafePieces_spec (opts : VictoryOptions) (ps : List (Nat × Nat)) :
    ∀ (pieces : List Piece) (b : Board),
      (∀ q ∈ ps, getCell b q.1 q.2 = none) →
      (filterSafePieces b pieces ps opts).2 = b ∧
      (filterSafePieces b pieces ps opts).1 =
        pieces.filter fun p => !(probePiecePositions b p ps opts).1 := by
  intro pieces
  induction pieces with
  | nil => intro b _; exact ⟨rfl, rfl⟩
  | cons p rest ih =>
    intro b hps
    have hprobe := probePiecePositions_snd p opts ps b hps
    obtain ⟨ihb, ihl⟩ := ih b hps
    have hsnd : (filterSafePieces b (p :: rest) ps opts).2
        = (filterSafePieces (probePiecePositions b p ps opts).2 rest ps opts).2 := rfl
    have hfst : (filterSafePieces b (p :: rest) ps opts).1
        = (if (probePiecePositions b p ps opts).1 = true
           then (filterSafePieces (probePiecePositions b p ps opts).2 rest ps opts).1
           else p :: (filterSafePieces (probePiecePositions b p ps opts).2 rest ps opts).1) := by
      show (if (probePiecePositions b p ps opts).1 = true
            then (filterSafePieces (probePiecePositions b p ps opts).2 rest ps opts).1
            else p :: (filterSafePieces (probePiecePositions b p ps opts).2 rest ps opts).1)
          = _
      rfl
    constructor
    · rw [hsnd, hprobe]
      exact ihb
    · rw [hfst, hprobe, List.filter_cons]
      by_cases hwin : (probePiecePositions b p ps opts).1 = true
      · rw [if_pos hwin, hwin]
        simp only [Bool.not_true, Bool.false_eq_true, if_false]
        exact ihl
      · rw [if_neg hwin]
        rw [Bool.not_eq_true] at hwin
        rw [hwin]
        simp only [Bool.not_false, if_true]
        rw [ihl]

/-- Bound for the JavaScript random index draw. -/
theorem jsRandomIndex_lt (rand : Rat) (len : Nat) (h0 : 0 ≤ rand) (h1 : rand < 1)
    (hlen : 0 < len) : jsRandomIndex rand len < len := by
  unfold jsRandomIndex
  have hge : (0 : Int) ≤ (rand * len).floor := by
    apply Rat.le_floor.mpr
    push_cast
    positivity
  have hlt : (rand * len).floor < (len : Int) := by
    by_contra hcon
    push_neg at hcon
    have hle := Rat.le_floor.mp hcon
    have hlt2 : rand * (len : Rat) < (len : Rat) := by
      calc rand * (len : Rat) < 1 * (len : Rat) := by
            apply mul_lt_mul_of_pos_right h1
            exact_mod_cast hlen
      _ = (len : Rat) := one_mul _
    push_cast at hle
    linarith
  omega

/-- Bridge between the probe loop and the safety predicate. -/
theorem probe_false_iff_safe (b : Board) (opts : VictoryOptions) (p : Piece) :
    (!(probePiecePositions b p (getEmptyPositions b) opts).1) = true ↔
      SafePiece b opts p := by
  have hemp : ∀ q ∈ getEmptyPositions b, getCell b q.1 q.2 = none :=
    fun q hq => mem_getEmptyPositions hq
  rw [Bool.not_eq_true']
  constructor
  · intro hfalse q hq
    by_contra hq2
    rw [Bool.not_eq_false] at hq2
    have hp : (probePiecePositions b p (getEmptyPositions b) opts).1 = true :=
      (probePiecePositions_fst p opts (getEmptyPositions b) b hemp).mpr ⟨q, hq, hq2⟩
    rw [hp] at hfalse
    exact Bool.noConfusion hfalse
  · intro hsafep
    by_contra hne
    rw [Bool.not_eq_false] at hne
    obtain ⟨q, hq, hw⟩ := (probePiecePositions_fst p opts (getEmptyPositions b) b hemp).mp hne
    have hfalse := hsafep q hq
    rw [hfalse] at hw
    exact Bool.noConfusion hw

/-- C4.  Whenever a safe piece exists among the available pieces, the
piece handed over by aiChoosePiece is safe: it never gives the opponent
an immediate win when a non-losing alternative exists. -/
theorem spec2proof_c4 (b : Board) (pieces : List Piece) (opts : VictoryOptions)
    (rand1 rand2 : Rat) (hWF : WellFormed b) (h0 : 0 ≤ rand1) (h1 : rand1 < 1)
    (hsafe : ∃ p ∈ pieces, SafePiece b opts p) :
    ∃ p, (aiChoosePiece b pieces opts rand1 rand2).1 = some p ∧ SafePiece b opts p := by
  have hemp : ∀ q ∈ getEmptyPositions b, getCell b q.1 q.2 = none :=
    fun q hq => mem_getEmptyPositions hq
  obtain ⟨hsnd, hfst⟩ := filterSafePieces_spec opts (getEmptyPositions b) pieces b hemp
  obtain ⟨p0, hp0mem, hp0safe⟩ := hsafe
  have hp0in : p0 ∈ (filterSafePieces b pieces (getEmptyPositions b) opts).1 := by
    rw [hfst, List.mem_filter]
    exact ⟨hp0mem, (probe_false_iff_safe b opts p0).mpr hp0safe⟩
  have hlen : 0 < (filterSafePieces b pieces (getEmptyPositions b) opts).1.length :=
    List.length_pos.mpr (List.ne_nil_of_mem hp0in)
  have hidx := jsRandomIndex_lt rand1 _ h0 h1 hlen
  have hchoose : (aiChoosePiece b pieces opts rand1 rand2).1
      = (filterSafePieces b pieces (getEmptyPositions b) opts).1.get?
          (jsRandomIndex rand1
            (filterSafePieces b pieces (getEmptyPositions b) opts).1.length) := by
    show (if (filterSafePieces b pieces (getEmptyPositions b) opts).1.length > 0 then
            ((filterSafePieces b pieces (getEmptyPositions b) opts).1.get?
              (jsRandomIndex rand1
                (filterSafePieces b pieces (getEmptyPositions b) opts).1.length),
             (filterSafePieces b pieces (getEmptyPositions b) opts).2)
          else
            (pieces.get? (jsRandomIndex rand2 pieces.length),
             (filterSafePieces b pieces (getEmptyPositions b) opts).2)).1 = _
    rw [if_pos hlen]
  have hget := List.get?_eq_get hidx
  refine ⟨(filterSafePieces b pieces (getEmptyPositions b) opts).1.get
      ⟨jsRandomIndex rand1 (filterSafePieces b pieces (getEmptyPositions b) opts).1.length,
       hidx⟩, ?_, ?_⟩
  · rw [hchoose, hget]
  · set x := (filterSafePieces b pieces (getEmptyPositions b) opts).1.get
      ⟨jsRandomIndex rand1 (filterSafePieces b pieces (getEmptyPositions b) opts).1.length,
       hidx⟩ with hx
    have hmem : x ∈ (filterSafePieces b pieces (getEmptyPositions b) opts).1 := by
      rw [hx]
      exact List.get_mem _ _ hidx
    rw [hfst, List.mem_filter] at hmem
    exact (probe_false_iff_safe b opts x).mp hmem.2

/-- Witness for C4: the empty board, the single available piece 0,
random draw 0. -/
theorem spec2proof_c4_witness :
    ∃ p, (aiChoosePiece initializeBoard [0] ⟨true, false⟩ 0 0).1 = some p ∧
      SafePiece initializeBoard ⟨true, false⟩ p :=
  spec2proof_c4 initializeBoard [0] ⟨true, false⟩ 0 0 (by decide) (by norm_num)
    (by norm_num) ⟨0, by decide⟩

/-- Once a winning cell was returned, later loop iterations change
nothing. -/
theorem aiPosStep_frozen (p : Piece) (opts : VictoryOptions) (randFn : Nat → Rat)
    (acc : AiPosAcc) (pos : Nat × Nat) (q : Nat × Nat) (h : acc.result = some q) :
    aiPosStep p opts randFn acc pos = acc := by
  rcases acc with ⟨ab, ares, abest, amax, ridx⟩
  simp only at h
  subst h
  rfl

theorem foldl_aiPosStep_frozen (p : Piece) (opts : VictoryOptions) (randFn : Nat → Rat)
    (q : Nat × Nat) :
    ∀ (l : List (Nat × Nat)) (acc : AiPosAcc), acc.result = some q →
      l.foldl (aiPosStep p opts randFn) acc = acc := by
  intro l
  induction l with
  | nil => intro acc _; rfl
  | cons a t ih =>
    intro acc h
    rw [List.foldl_cons, aiPosStep_frozen p opts randFn acc a q h]
    exact ih acc h

/-- One loop iteration over an empty cell of the original board: the
board comes back unchanged and the early-return field is set exactly
when the placement wins. -/
theorem aiPosStep_preserve (p : Piece) (opts : VictoryOptions) (randFn : Nat → Rat)
    (b : Board) (acc : AiPosAcc) (pos : Nat × Nat)
    (hb : acc.board = b) (hres : acc.result = none)
    (hcell : getCell b pos.1 pos.2 = none) :
    (aiPosStep p opts randFn acc pos).board = b ∧
    (aiPosStep p opts randFn acc pos).result =
      (if (wouldWin b pos.1 pos.2 p opts).1 = true then some pos else none) := by
  rcases acc with ⟨ab, ares, abest, amax, ridx⟩
  simp only at hb hres
  subst hres
  rw [hb]
  have hww : (wouldWin b pos.1 pos.2 p opts).2 = b :=
    wouldWin_snd b pos.1 pos.2 p opts hcell
  have hback : setCell (setCell b pos.1 pos.2 (some p)) pos.1 pos.2 none = b := by
    rw [setCell_setCell]
    exact setCell_none_of_getCell_none b pos.1 pos.2 hcell
  have hcnt : ∀ reserve : List Piece,
      (if getEmptyPositions (setCell b pos.1 pos.2 (some p)) = []
       then ((0 : Nat), setCell b pos.1 pos.2 (some p))
       else countSafeReserve (setCell b pos.1 pos.2 (some p)) reserve
         (getEmptyPositions (setCell b pos.1 pos.2 (some p))) opts).2
        = setCell b pos.1 pos.2 (some p) := by
    intro reserve
    by_cases hne2 : getEmptyPositions (setCell b pos.1 pos.2 (some p)) = []
    · rw [if_pos hne2]
    · rw [if_neg hne2]
      exact countSafeReserve_snd opts _ reserve _ fun q hq => mem_getEmptyPositions hq
  constructor
  · simp only [aiPosStep, apply_ite AiPosAcc.board]
    by_cases hwin : (wouldWin b pos.1 pos.2 p opts).1 = true
    · rw [if_pos hwin]
      exact hww
    · rw [if_neg hwin, hww, hcnt _]
      exact hback
  · simp only [aiPosStep, apply_ite AiPosAcc.result]

/-- Loop invariant of aiChoosePosition: the threaded board stays equal
to the input board; when the loop ends without early return, no scanned
cell was winning; when it ends early on a cell, that cell wins. -/
theorem foldl_aiPosStep_main (p : Piece) (opts : VictoryOptions) (randFn : Nat → Rat)
    (b : Board) :
    ∀ (l : List (Nat × Nat)) (acc : AiPosAcc), acc.board = b → acc.result = none →
      (∀ q ∈ l, getCell b q.1 q.2 = none) →
      ((l.foldl (aiPosStep p opts randFn) acc).board = b ∧
       ((l.foldl (aiPosStep p opts randFn) acc).result = none →
          ∀ q ∈ l, (wouldWin b q.1 q.2 p opts).1 = false) ∧
       (∀ q, (l.foldl (aiPosStep p opts randFn) acc).result = some q →
          (wouldWin b q.1 q.2 p opts).1 = true ∧ q ∈ l)) := by
  intro l
  induction l with
  | nil =>
    intro acc hb hres _
    refine ⟨hb, fun _ q hq => absurd hq (List.not_mem_nil q), fun q hq => ?_⟩
    rw [List.foldl_nil, hres] at hq
    exact Option.noConfusion hq
  | cons a t ih =>
    intro acc hb hres hl
    rw [List.foldl_cons]
    obtain ⟨hsb, hsr⟩ :=
      aiPosStep_preserve p opts randFn b acc a hb hres (hl a (List.mem_cons_self a t))
    by_cases hwin : (wouldWin b a.1 a.2 p opts).1 = true
    · rw [if_pos hwin] at hsr
      rw [foldl_aiPosStep_frozen p opts randFn a t _ hsr]
      refine ⟨hsb, ?_, ?_⟩
      · intro hn
        rw [hsr] at hn
        exact absurd hn (by simp)
      · intro q hq
        rw [hsr] at hq
        injection hq with hq
        subst hq
        exact ⟨hwin, List.mem_cons_self a t⟩
    · rw [if_neg hwin] at hsr
      obtain ⟨ihb, ihnone, ihsome⟩ :=
        ih (aiPosStep p opts randFn acc a) hsb hsr
          fun q hq => hl q (List.mem_cons_of_mem a hq)
      refine ⟨ihb, ?_, ?_⟩
      · intro hn q hq
        rcases List.mem_cons.mp hq with hq | hq
        · subst hq
          rw [Bool.not_eq_true] at hwin
          exact hwin
        · exact ihnone hn q hq
      · intro q hq
        obtain ⟨hw, hmem⟩ := ihsome q hq
        exact ⟨hw, List.mem_cons_of_mem a hmem⟩

/-- C5.  Whenever some empty cell makes the piece in hand win
immediately, aiChoosePosition returns a winning cell, for every random
stream. -/
theorem spec2proof_c5 (b : Board) (p : Piece) (opts : VictoryOptions)
    (randFn : Nat → Rat) (hWF : WellFormed b)
    (hne : getEmptyPositions b ≠ [])
    (hwin : ∃ q ∈ getEmptyPositions b, (wouldWin b q.1 q.2 p opts).1 = true) :
    ∃ q, (aiChoosePosition b p opts randFn).1 = some q ∧
      (wouldWin b q.1 q.2 p opts).1 = true := by
  have hemp : ∀ q ∈ getEmptyPositions b, getCell b q.1 q.2 = none :=
    fun q hq => mem_getEmptyPositions hq
  obtain ⟨hboard, hnone, hsome⟩ :=
    foldl_aiPosStep_main p opts randFn b (getEmptyPositions b)
      { board := b, result := none, bestMove := (getEmptyPositions b).head?,
        maxScore := none, ridx := 0 } rfl rfl hemp
  have hchoose : (aiChoosePosition b p opts randFn).1
      = (match ((getEmptyPositions b).foldl (aiPosStep p opts randFn)
          { board := b, result := none, bestMove := (getEmptyPositions b).head?,
            maxScore := none, ridx := 0 }).result with
         | some pos => some pos
         | none => ((getEmptyPositions b).foldl (aiPosStep p opts randFn)
            { board := b, result := none, bestMove := (getEmptyPositions b).head?,
              maxScore := none, ridx := 0 }).bestMove) := rfl
  cases hres : ((getEmptyPositions b).foldl (aiPosStep p opts randFn)
      { board := b, result := none, bestMove := (getEmptyPositions b).head?,
        maxScore := none, ridx := 0 }).result with
  | none =>
    exfalso
    obtain ⟨q, hq, hqw⟩ := hwin
    have hfalse := hnone hres q hq
    rw [hfalse] at hqw
    exact Bool.noConfusion hqw
  | some q =>
    refine ⟨q, ?_, (hsome q hres).1⟩
    rw [hchoose, hres]

/-- Witness for C5: the top row holds pieces 0, 1, 2; placing piece 3
at (0, 3) completes a row of pieces sharing the cleared high bits. -/
theorem spec2proof_c5_witness :
    ∃ q, (aiChoosePosition
        [[some 0, some 1, some 2, none],
         [none, none, none, none],
         [none, none, none, none],
         [none, none, none, none]] 3 ⟨true, false⟩ (fun _ => 0)).1 = some q ∧
      (wouldWin
        [[some 0, some 1, some 2, none],
         [none, none, none, none],
         [none, none, none, none],
         [none, none, none, none]] q.1 q.2 3 ⟨true, false⟩).1 = true :=
  spec2proof_c5 _ 3 ⟨true, false⟩ (fun _ => 0) (by decide) (by decide)
    ⟨(0, 3), by decide⟩

/-- C10.  Both AI entry points leave the board argument cell-for-cell
unchanged: every temporary in-place write of the simulations is undone
before they return. -/
theorem spec2proof_c10 (b : Board) (p : Piece) (pieces : List Piece)
    (opts : VictoryOptions) (randFn : Nat → Rat) (rand1 rand2 : Rat)
    (hWF : WellFormed b) :
    (aiChoosePosition b p opts randFn).2 = b ∧
    (aiChoosePiece b pieces opts rand1 rand2).2 = b := by
  have hemp : ∀ q ∈ getEmptyPositions b, getCell b q.1 q.2 = none :=
    fun q hq => mem_getEmptyPositions hq
  constructor
  · have hb2 : (aiChoosePosition b p opts randFn).2
        = ((getEmptyPositions b).foldl (aiPosStep p opts randFn)
            { board := b, result := none, bestMove := (getEmptyPositions b).head?,
              maxScore := none, ridx := 0 }).board := rfl
    rw [hb2]
    exact (foldl_aiPosStep_main p opts randFn b (getEmptyPositions b)
      { board := b, result := none, bestMove := (getEmptyPositions b).head?,
        maxScore := none, ridx := 0 } rfl rfl hemp).1
  · have hsnd := (filterSafePieces_spec opts (getEmptyPositions b) pieces b hemp).1
    have hb2 : (aiChoosePiece b pieces opts rand1 rand2).2
        = (filterSafePieces b pieces (getEmptyPositions b) opts).2 := by
      show (if (filterSafePieces b pieces (getEmptyPositions b) opts).1.length > 0 then
              ((filterSafePieces b pieces (getEmptyPositions b) opts).1.get?
                (jsRandomIndex rand1
                  (filterSafePieces b pieces (getEmptyPositions b) opts).1.length),
               (filterSafePieces b pieces (getEmptyPositions b) opts).2)
            else
              (pieces.get? (jsRandomIndex rand2 pieces.length),
               (filterSafePieces b pieces (getEmptyPositions b) opts).2)).2 = _
      by_cases hc : (filterSafePieces b pieces (getEmptyPositions b) opts).1.length > 0
      · rw [if_pos hc]
      · rw [if_neg hc]
    rw [hb2, hsnd]

/-- Witness for C10: the board with one piece placed, piece 7 in hand,
one available piece, both options enabled. -/
theorem spec2proof_c10_witness :
    (aiChoosePosition
      [[some 5, none, none, none],
       [none, none, none, none],
       [none, none, none, none],
       [none, none, none, none]] 7 ⟨true, true⟩ (fun _ => 0)).2 =
      [[some 5, none, none, none],
       [none, none, none, none],
       [none, none, none, none],
       [none, none, none, none]] ∧
    (aiChoosePiece
      [[some 5, none, none, none],
       [none, none, none, none],
       [none, none, none, none],
       [none, none, none, none]] [3] ⟨true, true⟩ 0 0).2 =
      [[some 5, none, none, none],
       [none, none, none, none],
       [none, none, none, none],
       [none, none, none, none]] :=
  spec2proof_c10 _ 7 [3] ⟨true, true⟩ (fun _ => 0) 0 0 (by decide)

end Quarto
